import Mathlib

/-!
Shallow embedding of the pugast template runtime
(`src/core/pug_template/pugast/runtime.go`) of the flamingo repository:
the value model, the conversion engine, the operator engine and the
builtin-function table, together with proofs settling the frozen claims.

Modelling conventions:
* Go's signed integer kinds (`int`, `int8` … `int64`) are embedded as `Int`;
  where Go arithmetic wraps at 64 bits the wrap is applied explicitly
  (`wrap64`).
* Go's `float64` values are embedded as exact rationals `ℚ`.  Every claim
  settled below is decided by operand order, kind dispatch and sentinel
  choice, never by IEEE-754 rounding; the one evaluation that would differ
  (a zero divisor in `quo`, which IEEE maps to ±Inf/NaN and `ℚ` maps to `0`)
  is excluded by hypothesis where it could matter.
* A Go runtime panic (out-of-range slice index, integer division by zero,
  failed type assertion) is embedded as `Except.error` carrying a `Fault`.
-/

namespace Pugast

/-- A Go runtime panic reachable from this core. -/
inductive Fault where
  | indexOutOfRange
  | divideByZero
  | typeAssertion
  deriving DecidableEq, Repr

/-- Host-native values handed to the runtime by generated render code.
Go's signed integer kinds collapse to `int` (as `reflect.Value.Int` does),
its float kinds to `float64` (as `reflect.Value.Float` does, modelled by
`ℚ`). -/
inductive HostVal where
  | int (n : Int)
  | float (q : ℚ)
  | str (s : String)
  | bool (b : Bool)
  | nil
  deriving DecidableEq, Repr

/-- Modelled from the spec: the tagged-variant `Value` type of §3 (the type
declarations of the pugast value model are not among the provided source
files; only `runtime.go` is).  `Map` carries its entries as an
insertion-ordered list, as §3 requires of the missing implementation. -/
inductive Value where
  | nil
  | bool (b : Bool)
  | num (q : ℚ)
  | str (s : String)
  | arr (items : List Value)
  | map (items : List (Value × Value))

/-- Two's-complement wrap of Go 64-bit integer arithmetic. -/
def wrap64 (n : Int) : Int :=
  (n + 2 ^ 63) % 2 ^ 64 - 2 ^ 63

/-- Left-pad a digit string with zeros to six characters. -/
def padSix (s : String) : String :=
  String.mk (List.replicate (6 - s.length) '0') ++ s

/-- Go's `fmt.Sprintf("%f", x)`: fixed six fractional digits (`round` here
is round-half-up where Go rounds half to even; no settled claim evaluates
this formatting). -/
def formatF (q : ℚ) : String :=
  let sgn := if q < 0 then "-" else ""
  let a := |q|
  let scaled : Int := round (a * 1000000)
  sgn ++ toString (scaled / 1000000) ++ "." ++ padSix (toString (scaled % 1000000))

/-- Modelled from the spec: the string form of a `Value` (§4.2/§4.4 refer
to "the string form"; the `String()` methods of the value model are not in
the provided sources).  Container forms are stand-ins: no claim below
evaluates them. -/
def Value.String : Value → String
  | .nil => ""
  | .bool b => cond b "true" "false"
  | .num q => if q.den = 1 then toString q.num else formatF q
  | .str s => s
  | .arr _ => "array"
  | .map _ => "map"

/-- Modelled from the spec: the conversion engine of §4.1 restricted to the
scalar host kinds the claims exercise (nil, booleans, every integer and
float width, strings). -/
def convert : HostVal → Value
  | .nil => Value.nil
  | .bool b => Value.bool b
  | .int n => Value.num (n : ℚ)
  | .float q => Value.num q
  | .str s => Value.str s

/-- The first branch of the funcmap's `tryindex`: the receiver is `*Array`
and the key is a Go `int`, so the code returns `arr.items[idx]` — a direct
slice index with no bounds check, which panics when `idx` is outside
`[0, len)`. -/
def tryindex (items : List Value) (idx : Int) : Except Fault Value :=
  if h : 0 ≤ idx ∧ idx.toNat < items.length then
    .ok (items.get ⟨idx.toNat, h.2⟩)
  else
    .error .indexOutOfRange

/-- The funcmap's `_Range` builtin: one argument `[m]` iterates `0 ≤ i < m`;
two or more arguments iterate `args[0] ≤ i < args[1]`; with no arguments the
code evaluates `args[1]` and panics. -/
def rangeBuiltin (args : List Int) : Except Fault (List Int) :=
  match args with
  | [] => .error .indexOutOfRange
  | [m] => .ok ((List.range (m - 0).toNat).map (fun i => (0 : Int) + i))
  | o :: m :: _ => .ok ((List.range (m - o).toNat).map (fun i => o + i))

/-- The funcmap's `attr` builtin: `nil` yields `""`; otherwise the code
asserts `attr.(string)`, splits on single spaces, asserts `prefix.(string)`
for each token and joins `pre ++ "-" ++ token` with spaces.  A failed type
assertion panics. -/
def attr (attrVal pre : HostVal) : Except Fault String :=
  match attrVal with
  | .nil => .ok ""
  | .str s =>
    match pre with
    | .str p => .ok (String.intercalate " " ((s.splitOn " ").map (fun v => p ++ "-" ++ v)))
    | _ => .error .typeAssertion
  | _ => .error .typeAssertion

/-- `runtimeRem`: defined only when both operands are of integer kind; the
Go `%` is truncated remainder and panics on a zero divisor.  Every other
kind combination returns the `"<nil>"` text sentinel. -/
def runtimeRem (x y : HostVal) : Except Fault HostVal :=
  match x, y with
  | .int a, .int b =>
    if b = 0 then .error .divideByZero else .ok (.int (Int.tmod a b))
  | _, _ => .ok (.str "<nil>")

/-- `runtimeSub`, variadic: the code binds `y := i[0]` and `x := i[1]`
(defaulting `x` to the Go `int` literal `0` when only one argument is
given), dispatches on the host-native kinds of `x` then `y`, and computes
`x - y`; integer/integer stays a (wrapping) integer, any float operand
forces a float result, and any non-numeric operand yields the `"<nil>"`
sentinel.  An empty argument list panics at `i[0]`. -/
def runtimeSub (i : List HostVal) : Except Fault HostVal :=
  match i with
  | [] => .error .indexOutOfRange
  | y :: rest =>
    let x := rest.getD 0 (.int 0)
    .ok (match x, y with
      | .int a, .int b => .int (wrap64 (a - b))
      | .int a, .float q => .float ((a : ℚ) - q)
      | .float p, .int b => .float (p - (b : ℚ))
      | .float p, .float q => .float (p - q)
      | _, _ => .str "<nil>")

/-- `runtimeMul`: kind dispatch as in `runtimeSub`, product of the two
operands; integer/integer stays a (wrapping) integer, any float operand
forces a float result, any non-numeric operand yields the sentinel. -/
def runtimeMul (x y : HostVal) : HostVal :=
  match x, y with
  | .int a, .int b => .int (wrap64 (a * b))
  | .int a, .float q => .float ((a : ℚ) * q)
  | .float p, .int b => .float (p * (b : ℚ))
  | .float p, .float q => .float (p * q)
  | _, _ => .str "<nil>"

/-- `runtimeQuo`: both operands are coerced to `float64` and divided, so the
result is a float even for two integer operands; any non-numeric operand
yields the sentinel.  (`ℚ` division maps a zero divisor to `0` where IEEE
produces ±Inf/NaN; the claims only evaluate nonzero divisors.) -/
def runtimeQuo (x y : HostVal) : HostVal :=
  match x, y with
  | .int a, .int b => .float ((a : ℚ) / (b : ℚ))
  | .int a, .float q => .float ((a : ℚ) / q)
  | .float p, .int b => .float (p / (b : ℚ))
  | .float p, .float q => .float (p / q)
  | _, _ => .str "<nil>"

/-- Whether a host value is of a Go numeric kind (matched by the
`reflect.Int*`/`reflect.Float*` cases of the operator engine). -/
def HostVal.isNumeric : HostVal → Bool
  | .int _ => true
  | .float _ => true
  | _ => false

/-- Whether a host value is of a Go signed-integer kind. -/
def HostVal.isIntKind : HostVal → Bool
  | .int _ => true
  | _ => false

/-- C1: the spec demands `tryindex` on an `Array` receiver return `Nil` for
an out-of-range integer key and never fault, but the code indexes
`arr.items[idx]` without a bounds check: at `Array[10,20,30]` with key `5`
it faults, while in-range keys do return the element. -/
theorem claim1_tryindex_oob_faults :
    tryindex [Value.num 10, Value.num 20, Value.num 30] 5 = .error .indexOutOfRange ∧
    tryindex [Value.num 10, Value.num 20, Value.num 30] 1 = .ok (Value.num 20) := by
  constructor <;> rfl

/-- C2: the spec says no operation of this core may panic, but `rem(1,0)`
panics with a zero divisor, `_Range()` panics indexing `args[1]`, and
`attr(1, "data")` panics on the `attr.(string)` type assertion. -/
theorem claim2_panic_paths :
    runtimeRem (.int 1) (.int 0) = .error .divideByZero ∧
    rangeBuiltin [] = .error .indexOutOfRange ∧
    attr (.int 1) (.str "data") = .error .typeAssertion := by
  refine ⟨rfl, rfl, rfl⟩

/-- C3 counterexample: the claim says `sub(x,y)` subtracts its second
argument from its first, so `sub(10,3)` would be `7`; the code binds
`y := i[0]`, `x := i[1]` and returns `x - y = 3 - 10 = -7`. -/
theorem claim3_sub_order_counterexample :
    runtimeSub [.int 10, .int 3] = .ok (.int (-7)) ∧ (-7 : Int) ≠ 10 - 3 := by
  constructor
  · rfl
  · decide

/-- C3 amended: `sub(x,y)` computes `y - x` (its first argument subtracted
from its second); with that order, `sub`/`mul` keep integer/integer operands
in (wrapping) 64-bit integer arithmetic and produce floats when either
operand is a float, `quo` coerces both operands to floating point and so
yields a float even for two integers, and `rem` is defined only for
integer/integer pairs — every other kind combination for these operators
returns the `"<nil>"` text sentinel. -/
theorem claim3_amended :
    (∀ a b : Int, runtimeSub [.int a, .int b] = .ok (.int (wrap64 (b - a)))) ∧
    (∀ (a : Int) (q : ℚ), runtimeSub [.int a, .float q] = .ok (.float (q - (a : ℚ)))) ∧
    (∀ (q : ℚ) (a : Int), runtimeSub [.float q, .int a] = .ok (.float ((a : ℚ) - q))) ∧
    (∀ p q : ℚ, runtimeSub [.float p, .float q] = .ok (.float (q - p))) ∧
    (∀ a b : Int, runtimeMul (.int a) (.int b) = .int (wrap64 (a * b))) ∧
    (∀ (a : Int) (q : ℚ), runtimeMul (.int a) (.float q) = .float ((a : ℚ) * q)) ∧
    (∀ (q : ℚ) (a : Int), runtimeMul (.float q) (.int a) = .float (q * (a : ℚ))) ∧
    (∀ p q : ℚ, runtimeMul (.float p) (.float q) = .float (p * q)) ∧
    (∀ a b : Int, b ≠ 0 → runtimeQuo (.int a) (.int b) = .float ((a : ℚ) / (b : ℚ))) ∧
    (∀ (a : Int) (q : ℚ), q ≠ 0 → runtimeQuo (.int a) (.float q) = .float ((a : ℚ) / q)) ∧
    (∀ (p : ℚ) (b : Int), b ≠ 0 → runtimeQuo (.float p) (.int b) = .float (p / (b : ℚ))) ∧
    (∀ p q : ℚ, q ≠ 0 → runtimeQuo (.float p) (.float q) = .float (p / q)) ∧
    (∀ a b : Int, b ≠ 0 → runtimeRem (.int a) (.int b) = .ok (.int (Int.tmod a b))) ∧
    (∀ x y : HostVal, (x.isNumeric && y.isNumeric) = false →
      runtimeSub [x, y] = .ok (.str "<nil>") ∧ runtimeMul x y = .str "<nil>" ∧
        runtimeQuo x y = .str "<nil>") ∧
    (∀ x y : HostVal, (x.isIntKind && y.isIntKind) = false →
      runtimeRem x y = .ok (.str "<nil>")) := by
  refine ⟨fun a b => rfl, fun a q => rfl, fun q a => rfl, fun p q => rfl,
    fun a b => rfl, fun a q => rfl, fun q a => rfl, fun p q => rfl,
    fun a b _ => rfl, fun a q _ => rfl, fun p b _ => rfl, fun p q _ => rfl,
    ?_, ?_, ?_⟩
  · intro a b hb
    simp [runtimeRem, hb]
  · intro x y h
    cases x <;> cases y <;> simp [HostVal.isNumeric] at h <;>
      exact ⟨rfl, rfl, rfl⟩
  · intro x y h
    cases x <;> cases y <;> simp [HostVal.isIntKind] at h <;> rfl

/-- C3 witness: the amended theorem instantiated at concrete operands, its
nonzero-divisor and non-numeric-kind hypotheses discharged there. -/
theorem claim3_amended_witness :
    runtimeSub [.int 2, .int 7] = .ok (.int (wrap64 (7 - 2))) ∧
    runtimeQuo (.int 1) (.int 2) = .float ((1 : ℚ) / (2 : ℚ)) ∧
    runtimeRem (.str "a") (.int 3) = .ok (.str "<nil>") := by
  obtain ⟨h1, h2, h3, h4, h5, h6, h7, h8, h9, h10, h11, h12, h13, h14, h15⟩ :=
    claim3_amended
  exact ⟨h1 2 7, h9 1 2 (by decide), h15 (.str "a") (.int 3) (by decide)⟩

/-- C9: with a single argument `y`, `runtimeSub` defaults the missing
operand to the Go `int` `0` and returns `0 - y`: an integer (with Go's
64-bit wrap) for an integer argument, a float for a float argument. -/
theorem claim9_unary_sub :
    (∀ n : Int, runtimeSub [.int n] = .ok (.int (wrap64 (0 - n)))) ∧
    (∀ q : ℚ, runtimeSub [.float q] = .ok (.float (((0 : Int) : ℚ) - q))) :=
  ⟨fun _ => rfl, fun _ => rfl⟩

/-- `runtimeEql`: the cross-kind equality matrix.  Integer/float pairs
compare numerically, a string leg formats the numeric leg (`%d` for
integers, `%f` for floats) and compares as strings, `bool~int` (this
direction only) is `x && y != 0`, `bool~bool` is exact; every combination
outside the matrix — including the mirror `int~bool` and anything involving
`nil` — falls through to `false`. -/
def runtimeEql (x y : HostVal) : Bool :=
  match x, y with
  | .int a, .int b => decide (a = b)
  | .int a, .float q => decide ((a : ℚ) = q)
  | .int a, .str s => decide (toString a = s)
  | .float p, .int b => decide (p = (b : ℚ))
  | .float p, .float q => decide (p = q)
  | .float p, .str s => decide (formatF p = s)
  | .str s, .int b => decide (s = toString b)
  | .str s, .float q => decide (s = formatF q)
  | .str s, .str t => decide (s = t)
  | .bool a, .int b => a && decide (b ≠ 0)
  | .bool a, .bool b => decide (a = b)
  | _, _ => false

/-- `runtimeLss`: the ordering matrix, parallel to equality but restricted
to numeric and string kinds (no boolean rows or columns); outside the
matrix the switch falls through to `false`. -/
def runtimeLss (x y : HostVal) : Bool :=
  match x, y with
  | .int a, .int b => decide (a < b)
  | .int a, .float q => decide ((a : ℚ) < q)
  | .int a, .str s => decide (toString a < s)
  | .float p, .int b => decide (p < (b : ℚ))
  | .float p, .float q => decide (p < q)
  | .float p, .str s => decide (formatF p < s)
  | .str s, .int b => decide (s < toString b)
  | .str s, .float q => decide (s < formatF q)
  | .str s, .str t => decide (s < t)
  | _, _ => false

/-- `runtimeGtr`, derived exactly as in the source: `!lss(x,y) && !eql(x,y)`. -/
def runtimeGtr (x y : HostVal) : Bool :=
  !runtimeLss x y && !runtimeEql x y

/-- Whether the kind pair `(x, y)` lies inside the documented equality
matrix of the spec (§4.2): numeric/string cross pairs, `bool~int` in that
direction only, and `bool~bool`. -/
def eqlKinds : HostVal → HostVal → Bool
  | .int _, .int _ | .int _, .float _ | .int _, .str _ => true
  | .float _, .int _ | .float _, .float _ | .float _, .str _ => true
  | .str _, .int _ | .str _, .float _ | .str _, .str _ => true
  | .bool _, .int _ | .bool _, .bool _ => true
  | _, _ => false

/-- Whether the kind pair `(x, y)` lies inside the documented ordering
matrix of the spec (§4.2): numeric and string kinds only. -/
def lssKinds : HostVal → HostVal → Bool
  | .int _, .int _ | .int _, .float _ | .int _, .str _ => true
  | .float _, .int _ | .float _, .float _ | .float _, .str _ => true
  | .str _, .int _ | .str _, .float _ | .str _, .str _ => true
  | _, _ => false

/-- Outside the equality matrix `runtimeEql` falls through to `false`. -/
theorem runtimeEql_outside (x y : HostVal) (h : eqlKinds x y = false) :
    runtimeEql x y = false := by
  cases x <;> cases y <;> simp [eqlKinds] at h <;> rfl

/-- Outside the ordering matrix `runtimeLss` falls through to `false`. -/
theorem runtimeLss_outside (x y : HostVal) (h : lssKinds x y = false) :
    runtimeLss x y = false := by
  cases x <;> cases y <;> simp [lssKinds] at h <;> rfl

/-- C5 counterexample: the claim says `eql(bool, int)` is true iff the int
is nonzero, but the code computes `x && y != 0`: at `x = false`, `y = 1`
the int is nonzero yet `eql` is `false`. -/
theorem claim5_bool_int_counterexample :
    runtimeEql (.bool false) (.int 1) = false ∧ (1 : Int) ≠ 0 := by
  exact ⟨rfl, by decide⟩

/-- C5 amended: for a boolean `x` and integer `y`, `eql(x,y)` is
`x && y != 0` — true iff `x` is `true` and `y` is nonzero; the mirror
`int~bool` order and every other kind combination outside the documented
matrix evaluate to `false`. -/
theorem claim5_amended :
    (∀ (b : Bool) (n : Int),
      runtimeEql (.bool b) (.int n) = (b && decide (n ≠ 0)) ∧
        (runtimeEql (.bool b) (.int n) = true ↔ b = true ∧ n ≠ 0)) ∧
    (∀ (n : Int) (b : Bool), runtimeEql (.int n) (.bool b) = false) ∧
    (∀ x y : HostVal, eqlKinds x y = false → runtimeEql x y = false) := by
  refine ⟨?_, fun n b => rfl, runtimeEql_outside⟩
  intro b n
  refine ⟨rfl, ?_⟩
  cases b <;> simp [runtimeEql]

/-- C5 witness: the amended theorem instantiated at concrete inputs, the
outside-matrix hypothesis discharged there. -/
theorem claim5_amended_witness :
    runtimeEql (.bool true) (.int 5) = (true && decide ((5 : Int) ≠ 0)) ∧
    runtimeEql (.int 5) (.bool true) = false ∧
    runtimeEql (.str "a") (.bool true) = false := by
  obtain ⟨h1, h2, h3⟩ := claim5_amended
  exact ⟨(h1 true 5).1, h2 5 true, h3 (.str "a") (.bool true) (by decide)⟩

/-- C7 counterexample: `bool~string` lies outside both matrices, where the
claim forces `gtr = false`; but `lss` and `eql` are both `false` there, so
the derivation `!lss && !eql` makes `gtr` evaluate to `true`. -/
theorem claim7_outside_counterexample :
    runtimeLss (.bool true) (.str "a") = false ∧
    runtimeEql (.bool true) (.str "a") = false ∧
    runtimeGtr (.bool true) (.str "a") = true := by
  exact ⟨rfl, rfl, rfl⟩

/-- C7 amended: `gtr(x,y) = !lss(x,y) && !eql(x,y)` for every kind pair;
consequently, for kind pairs outside both the ordering and the equality
matrix (where `lss` and `eql` are both `false`) `gtr` evaluates to `true`,
not `false`. -/
theorem claim7_amended :
    (∀ x y : HostVal, runtimeGtr x y = (!runtimeLss x y && !runtimeEql x y)) ∧
    (∀ x y : HostVal, lssKinds x y = false → eqlKinds x y = false →
      runtimeGtr x y = true) := by
  refine ⟨fun x y => rfl, ?_⟩
  intro x y hl he
  simp [runtimeGtr, runtimeLss_outside x y hl, runtimeEql_outside x y he]

/-- C7 witness: the amended theorem instantiated at a concrete pair outside
both matrices, its hypotheses discharged there. -/
theorem claim7_amended_witness :
    runtimeGtr (.nil) (.bool true) = true :=
  claim7_amended.2 .nil (.bool true) (by decide) (by decide)

/-- Parse a nonempty all-digit character list as a natural number. -/
def parseDigits (ds : List Char) : Option Nat :=
  if ds = [] then none
  else if ds.all Char.isDigit then
    some (ds.foldl (fun n c => n * 10 + (c.toNat - 48)) 0)
  else none

/-- Modelled from the spec: the float parse used by `add`'s number~string
case (the source calls the standard library's `strconv.ParseFloat`, which is
not repository code).  Handles an optional sign, integer digits and an
optional fraction; exponent and other forms are omitted — no claim below
evaluates them. -/
def parseFloatQ (s : String) : Option ℚ :=
  let cs := s.toList
  let sgnRest : ℚ × List Char :=
    match cs with
    | '-' :: r => (-1, r)
    | '+' :: r => (1, r)
    | r => (1, r)
  let ip := sgnRest.2.takeWhile (fun c => c ≠ '.')
  match sgnRest.2.dropWhile (fun c => c ≠ '.') with
  | [] => (parseDigits ip).map (fun n => sgnRest.1 * (n : ℚ))
  | _ :: fp =>
    match parseDigits ip, parseDigits fp with
    | some i, some f =>
      some (sgnRest.1 * ((i : ℚ) + (f : ℚ) / ((10 : ℚ) ^ fp.length)))
    | _, _ => none

/-- The `f, _ := strconv.ParseFloat(...)` idiom of `runtimeAdd`: a parse
failure leaves `f` at `0`. -/
def parseFloatOrZero (s : String) : ℚ :=
  (parseFloatQ s).getD 0

/-- `runtimeAdd`: both operands pass through `convert`; a `String` left
operand concatenates with the string form of the right, a `Number` left
operand adds a `Number` right operand or the float parse of a `String`
right operand, and every other combination falls through to `Nil`. -/
def runtimeAdd (l r : HostVal) : Value :=
  match convert l with
  | .str xs => .str (xs ++ (convert r).String)
  | .num x =>
    match convert r with
    | .num y => .num (x + y)
    | .str ys => .num (x + parseFloatOrZero ys)
    | _ => Value.nil
  | _ => Value.nil

/-- Whether a converted pair lies outside `add`'s documented matrix (left
`String`, or left `Number` with right `Number`/`String`). -/
def addOutside : Value → Value → Bool
  | .str _, _ => false
  | .num _, .num _ => false
  | .num _, .str _ => false
  | _, _ => true

/-- C6: `add(x,y)` concatenates when `x` converts to a `String`, sums when
`x` converts to a `Number` and `y` to a `Number`, adds the float parse
(failure as `0.0`) when `y` converts to a `String`, and yields `Nil` for
every other kind combination. -/
theorem claim6_add :
    (∀ (l r : HostVal) (s : String), convert l = .str s →
      runtimeAdd l r = .str (s ++ (convert r).String)) ∧
    (∀ (l r : HostVal) (x y : ℚ), convert l = .num x → convert r = .num y →
      runtimeAdd l r = .num (x + y)) ∧
    (∀ (l r : HostVal) (x : ℚ) (s : String), convert l = .num x →
      convert r = .str s → runtimeAdd l r = .num (x + parseFloatOrZero s)) ∧
    (∀ l r : HostVal, addOutside (convert l) (convert r) = true →
      runtimeAdd l r = Value.nil) := by
  refine ⟨?_, ?_, ?_, ?_⟩
  · intro l r s hl
    cases l <;> simp [convert] at hl
    subst hl
    rfl
  · intro l r x y hl hr
    cases l <;> simp [convert] at hl <;> cases r <;> simp [convert] at hr <;>
      subst hl <;> subst hr <;> rfl
  · intro l r x s hl hr
    cases l <;> simp [convert] at hl <;> cases r <;> simp [convert] at hr <;>
      subst hl <;> subst hr <;> rfl
  · intro l r h
    cases l <;> cases r <;> simp [convert, addOutside] at h <;> rfl

/-- C6 witness: the theorem instantiated at concrete pairs for each clause,
its conversion hypotheses discharged there. -/
theorem claim6_add_witness :
    runtimeAdd (.str "a") (.int 2) = .str ("a" ++ (convert (.int 2)).String) ∧
    runtimeAdd (.int 1) (.str "2.5") =
      .num (((1 : Int) : ℚ) + parseFloatOrZero "2.5") ∧
    runtimeAdd (.bool true) (.int 1) = Value.nil := by
  obtain ⟨h1, h2, h3, h4⟩ := claim6_add
  exact ⟨h1 (.str "a") (.int 2) "a" rfl,
    h3 (.int 1) (.str "2.5") ((1 : Int) : ℚ) "2.5" rfl rfl,
    h4 (.bool true) (.int 1) (by decide)⟩

/-- Go's `strings.TrimSpace`: strip leading and trailing whitespace
(restricted to the ASCII whitespace the claims exercise). -/
def trimSpace (s : String) : String :=
  String.mk (((s.toList.dropWhile Char.isWhitespace).reverse.dropWhile
    Char.isWhitespace).reverse)

/-- The funcmap's `s` builtin: appends `convert(arg).String()` for every
non-nil argument (no separator), then returns `" " ++ TrimSpace(res)` when
the accumulated byte length exceeds one and `""` otherwise. -/
def sBuiltin (l : List HostVal) : String :=
  let res := l.foldl (fun r x =>
    match x with
    | HostVal.nil => r
    | _ => r ++ (convert x).String) ""
  if 1 < res.utf8ByteSize then " " ++ trimSpace res else ""

/-- The contribution of one argument to `s`'s accumulator: skipped when
nil, its converted string form otherwise. -/
def sStringify : HostVal → Option String
  | HostVal.nil => none
  | x => some ((convert x).String)

/-- Concatenation of a list of strings with no separator. -/
def concatAll : List String → String
  | [] => ""
  | s :: rest => s ++ concatAll rest

theorem empty_append_str (s : String) : "" ++ s = s := rfl

/-- The accumulator loop of `s` concatenates the stringified non-nil
arguments in order. -/
theorem sBuiltin_foldl (l : List HostVal) (acc : String) :
    l.foldl (fun r x =>
        match x with
        | HostVal.nil => r
        | _ => r ++ (convert x).String) acc
      = acc ++ concatAll (l.filterMap sStringify) := by
  induction l generalizing acc with
  | nil => simp [concatAll]
  | cons hd tl ih =>
    cases hd <;>
      simp [sStringify, List.filterMap_cons, ih, concatAll, String.append_assoc]

/-- C8 counterexample: the claim says the arguments are joined with a
single space between them, so `s("a","b")` would be `"a b"`; the code
appends with no separator and then puts one space in front, giving
`" ab"`. -/
theorem claim8_join_counterexample :
    sBuiltin [.str "a", .str "b"] = " ab" ∧ " ab" ≠ "a b" := by
  exact ⟨by decide, by decide⟩

/-- C8 amended: `s` concatenates the stringified non-nil arguments with no
separator; when that concatenation is longer than one byte the result is a
single space followed by its whitespace-trimmed form, and otherwise (the
near-empty case, at most one byte) the empty string. -/
theorem claim8_amended :
    ∀ l : List HostVal,
      sBuiltin l =
        (if 1 < (concatAll (l.filterMap sStringify)).utf8ByteSize then
          " " ++ trimSpace (concatAll (l.filterMap sStringify))
        else "") := by
  intro l
  unfold sBuiltin
  rw [sBuiltin_foldl, empty_append_str]

/-- One `key="value"` fragment of `__add_andattributes`: a leading space,
the key's string form, and the whitespace-trimmed value in quotes. -/
def attrFragment (kv : Value × Value) : String :=
  " " ++ kv.1.String ++ "=\"" ++ trimSpace kv.2.String ++ "\""

/-- The funcmap's `__add_andattributes` builtin: over a `*Map` receiver it
walks the entries (in insertion order, per the spec-modelled `Value.map`),
appends a fragment for every key whose string form is not among the known
keys, and trims the result; any other receiver yields `""`. -/
def add_andattributes (attrs : Value) (ks : List String) : String :=
  match attrs with
  | .map items =>
    trimSpace (items.foldl (fun res kv =>
      if ks.contains kv.1.String then res else res ++ attrFragment kv) "")
  | _ => ""

/-- The accumulator loop of `__add_andattributes` concatenates, in list
order, the fragments of the entries whose keys are not known. -/
theorem add_andattributes_foldl (items : List (Value × Value)) (ks : List String)
    (acc : String) :
    items.foldl (fun res kv =>
        if ks.contains kv.1.String then res else res ++ attrFragment kv) acc
      = acc ++ concatAll
          ((items.filter (fun kv => !ks.contains kv.1.String)).map attrFragment) := by
  induction items generalizing acc with
  | nil => simp [concatAll]
  | cons hd tl ih =>
    by_cases hc : hd.1.String ∈ ks
    · have hc' : ks.contains hd.1.String = true := by simpa using hc
      simp at ih
      simp [List.filter_cons, hc', hc, ih, concatAll, String.append_assoc]
    · have hc' : ks.contains hd.1.String = false := by simpa using hc
      simp at ih
      simp [List.filter_cons, hc', hc, ih, concatAll, String.append_assoc]

/-- C4: the `key="value"` fragments for keys outside `knownKeys` are
emitted in the map's insertion order — the output is the trimmed, in-order
concatenation of the fragments of the non-known entries — and two calls
with the same arguments produce the same output string. -/
theorem claim4_attr_order :
    ∀ (items : List (Value × Value)) (ks : List String),
      add_andattributes (.map items) ks
        = trimSpace (concatAll
            ((items.filter (fun kv => !ks.contains kv.1.String)).map attrFragment)) ∧
      add_andattributes (.map items) ks = add_andattributes (.map items) ks := by
  intro items ks
  refine ⟨?_, rfl⟩
  have h :
      add_andattributes (.map items) ks
        = trimSpace (items.foldl (fun res kv =>
            if ks.contains kv.1.String then res else res ++ attrFragment kv) "") :=
    rfl
  rw [h, add_andattributes_foldl, empty_append_str]

/-- A Go `map[interface{}]interface{}` value, as an insertion-ordered
association list with unique keys maintained by `mapSet`. -/
abbrev GoMap := List (HostVal × HostVal)

/-- A heap of map objects; a Go map reference is an index into it, so that
aliasing and in-place mutation are explicit. -/
abbrev Store := List GoMap

/-- Go's `m[k] = v`: overwrite the entry of an existing key in place,
append a new key at the end. -/
def mapSet : GoMap → HostVal → HostVal → GoMap
  | [], k, v => [(k, v)]
  | (k', v') :: rest, k, v =>
    if k' = k then (k, v) :: rest else (k', v') :: mapSet rest k v

/-- Go's `m[k]` read: the value of the first entry with key `k`. -/
def mapGet : GoMap → HostVal → Option HostVal
  | [], _ => none
  | (k', v') :: rest, k => if k' = k then some v' else mapGet rest k

set_option linter.unusedVariables false in
/-- The funcmap's `extend` builtin over the explicit store: for each source
reference in order, every entry of the source map is written into the map
referenced by `dest` (`m[k] = v`), and the very reference `dest` is
returned.  The `deep` flag is read but never used, as in the source. -/
def extend (deep : Bool) (dest : Nat) (srcs : List Nat) (st : Store) :
    Store × Nat :=
  (srcs.foldl (fun s r =>
      s.set dest ((s.getD r []).foldl (fun m kv => mapSet m kv.1 kv.2)
        (s.getD dest []))) st,
   dest)

/-- Writing one slot of a store leaves every other slot unchanged. -/
theorem store_set_getD_ne (l : Store) (i j : Nat) (v : GoMap) (h : i ≠ j) :
    (l.set i v).getD j [] = l.getD j [] := by
  induction l generalizing i j with
  | nil => simp
  | cons hd tl ih =>
    cases i with
    | zero =>
      cases j with
      | zero => exact absurd rfl h
      | succ j' => simp [List.set, List.getD]
    | succ i' =>
      cases j with
      | zero => simp [List.set, List.getD]
      | succ j' =>
        simp only [List.set, List.getD_cons_succ]
        exact ih i' j' (fun hh => h (by rw [hh]))

/-- `mapSet` changes the read of the written key and no other. -/
theorem mapGet_mapSet (m : GoMap) (k k' v : HostVal) :
    mapGet (mapSet m k v) k' = if k = k' then some v else mapGet m k' := by
  induction m with
  | nil => simp [mapSet, mapGet]
  | cons hd tl ih =>
    obtain ⟨hk, hv⟩ := hd
    by_cases h1 : hk = k
    · subst h1
      by_cases h2 : hk = k'
      · subst h2
        simp [mapSet, mapGet]
      · simp [mapSet, mapGet, h2]
    · by_cases h2 : hk = k'
      · subst h2
        have h3 : ¬k = hk := fun hh => h1 hh.symm
        simp [mapSet, mapGet, h1, h3]
      · simp [mapSet, mapGet, h1, h2, ih]

/-- A key absent from a map (`mapGet` is `none`) heads none of its
entries. -/
theorem mapGet_none_keys (m : GoMap) (k : HostVal) (h : mapGet m k = none) :
    ∀ p ∈ m, p.1 ≠ k := by
  induction m with
  | nil => intro p hp; simp at hp
  | cons hd tl ih =>
    intro p hp
    obtain ⟨hk, hv⟩ := hd
    by_cases h1 : hk = k
    · simp [mapGet, h1] at h
    · simp [mapGet, h1] at h
      rcases List.mem_cons.mp hp with h2 | h2
      · subst h2; exact h1
      · exact ih h p h2

/-- Folding `m[k] = v` writes whose keys all differ from `k` over a map
leaves the read of `k` unchanged. -/
theorem mapGet_foldl_mapSet (pairs : GoMap) (m : GoMap) (k : HostVal)
    (h : ∀ p ∈ pairs, p.1 ≠ k) :
    mapGet (pairs.foldl (fun acc kv => mapSet acc kv.1 kv.2) m) k = mapGet m k := by
  induction pairs generalizing m with
  | nil => rfl
  | cons hd tl ih =>
    simp only [List.foldl_cons]
    rw [ih _ (fun p hp => h p (List.mem_cons_of_mem hd hp)),
      mapGet_mapSet, if_neg (h hd (List.mem_cons_self hd tl))]

/-- Setting a slot the store does not have is a no-op. -/
theorem store_set_oob (l : Store) (i : Nat) (v : GoMap) (h : l.length ≤ i) :
    l.set i v = l := by
  induction l generalizing i with
  | nil => rfl
  | cons hd tl ih =>
    cases i with
    | zero => simp at h
    | succ i' =>
      simp only [List.set]
      rw [ih i' (by simpa using h)]

/-- Reading back a slot just written returns the written map. -/
theorem store_set_getD_self (l : Store) (i : Nat) (v : GoMap) (h : i < l.length) :
    (l.set i v).getD i [] = v := by
  induction l generalizing i with
  | nil => simp at h
  | cons hd tl ih =>
    cases i with
    | zero => rfl
    | succ i' => exact ih i' (by simpa using h)

/-- The source loop of `extend` never writes a slot other than `dest`. -/
theorem extend_foldl_frame (dest : Nat) (srcs : List Nat) (st : Store) (r : Nat)
    (hr : r ≠ dest) :
    (srcs.foldl (fun s r =>
        s.set dest ((s.getD r []).foldl (fun m kv => mapSet m kv.1 kv.2)
          (s.getD dest []))) st).getD r []
      = st.getD r [] := by
  induction srcs generalizing st with
  | nil => rfl
  | cons hd tl ih =>
    simp only [List.foldl_cons]
    rw [ih, store_set_getD_ne _ _ _ _ (fun hh => hr hh.symm)]

/-- The source loop of `extend` leaves the read of any key absent from
every source unchanged in the destination map. -/
theorem extend_foldl_dest (dest : Nat) (k : HostVal) (srcs : List Nat)
    (s st : Store)
    (h1 : ∀ r ∈ srcs, mapGet (st.getD r []) k = none)
    (h2 : ∀ r, r ≠ dest → s.getD r [] = st.getD r [])
    (h3 : mapGet (s.getD dest []) k = mapGet (st.getD dest []) k) :
    mapGet ((srcs.foldl (fun s r =>
        s.set dest ((s.getD r []).foldl (fun m kv => mapSet m kv.1 kv.2)
          (s.getD dest []))) s).getD dest []) k
      = mapGet (st.getD dest []) k := by
  induction srcs generalizing s with
  | nil => exact h3
  | cons hd tl ih =>
    simp only [List.foldl_cons]
    have hsrc : ∀ p ∈ s.getD hd [], p.1 ≠ k := by
      apply mapGet_none_keys
      by_cases hd_dest : hd = dest
      · subst hd_dest
        rw [h3]
        exact h1 hd (List.mem_cons_self hd tl)
      · rw [h2 hd hd_dest]
        exact h1 hd (List.mem_cons_self hd tl)
    by_cases hlen : dest < s.length
    · refine ih _ (fun r hr => h1 r (List.mem_cons_of_mem hd hr)) ?_ ?_
      · intro r hr
        rw [store_set_getD_ne _ _ _ _ (fun hh => hr hh.symm)]
        exact h2 r hr
      · rw [store_set_getD_self _ _ _ hlen, mapGet_foldl_mapSet _ _ _ hsrc]
        exact h3
    · rw [store_set_oob _ _ _ (Nat.le_of_not_lt hlen)]
      exact ih _ (fun r hr => h1 r (List.mem_cons_of_mem hd hr)) h2 h3

/-- C10: `extend` returns the very reference it was handed as `dest` (the
returned map aliases the `dest` argument), never writes any other map in
the store, and keys of `dest` absent from every source keep their original
values. -/
theorem claim10_extend :
    ∀ (deep : Bool) (dest : Nat) (srcs : List Nat) (st : Store),
      (extend deep dest srcs st).2 = dest ∧
      (∀ r : Nat, r ≠ dest →
        (extend deep dest srcs st).1.getD r [] = st.getD r []) ∧
      (∀ k : HostVal, (∀ r ∈ srcs, mapGet (st.getD r []) k = none) →
        mapGet ((extend deep dest srcs st).1.getD dest []) k
          = mapGet (st.getD dest []) k) := by
  intro deep dest srcs st
  refine ⟨rfl, ?_, ?_⟩
  · intro r hr
    exact extend_foldl_frame dest srcs st r hr
  · intro k hk
    exact extend_foldl_dest dest k srcs st st hk (fun r _ => rfl) rfl

/-- C10 witness: the theorem instantiated on a concrete two-map store, its
hypotheses discharged there. -/
theorem claim10_extend_witness :
    (extend false 0 [1] [[(.str "a", .int 1)], [(.str "b", .int 3)]]).2 = 0 ∧
    (extend false 0 [1] [[(.str "a", .int 1)], [(.str "b", .int 3)]]).1.getD 1 []
      = [(.str "b", .int 3)] ∧
    mapGet ((extend false 0 [1]
        [[(.str "a", .int 1)], [(.str "b", .int 3)]]).1.getD 0 []) (.str "a")
      = mapGet ([(.str "a", .int 1)] : GoMap) (.str "a") := by
  obtain ⟨w1, w2, w3⟩ :=
    claim10_extend false 0 [1] [[(.str "a", .int 1)], [(.str "b", .int 3)]]
  exact ⟨w1, w2 1 (by decide), w3 (.str "a") (by decide)⟩

end Pugast
